import Mathlib

/-!
Shallow embedding of the SAP provider library (`sap` package: `types.py`,
`models.py`, `scheduler.py`) and verification of its specification claims.

Python values that flow through the canonical-encoding pipeline are modelled
by the inductive type `Val` (None, bool, int, str, list, dict, plus the two
domain primitives `Timestamp` and `Link` and calendar `datetime` values).
Dicts are modelled as insertion-ordered association lists with unique keys,
matching Python dict semantics: lookup finds the first (only) binding and
assignment to an existing key replaces the value in place, keeping position.
-/

/-- A `datetime.datetime` value, to whole-second precision.  `tzOffsetSeconds`
is the fixed UTC offset of `tzinfo` (`none` for a timezone-naive value). -/
structure PyDatetime where
  year : Nat
  month : Nat
  day : Nat
  hour : Nat
  minute : Nat
  second : Nat
  tzOffsetSeconds : Option Int
deriving DecidableEq, Repr

/-- Gregorian leap-year rule, as used by `datetime.date`. -/
def isLeapYear (y : Nat) : Bool :=
  y % 4 == 0 && (y % 100 != 0 || y % 400 == 0)

/-- Length of month `m` (1-based) of year `y`. -/
def daysInMonth (y m : Nat) : Nat :=
  if m = 2 then (if isLeapYear y then 29 else 28)
  else if m = 4 ∨ m = 6 ∨ m = 9 ∨ m = 11 then 30 else 31

/-- Days in year `y` before the first day of month `m` (1-based). -/
def daysBeforeMonth (y m : Nat) : Nat :=
  ((List.range (m - 1)).map (fun k => daysInMonth y (k + 1))).sum

/-- Proleptic-Gregorian ordinal of a calendar date, as computed by
`datetime.date.toordinal`: day 1 is 0001-01-01.  1970-01-01 is day 719163. -/
def toOrdinal (y m d : Nat) : Nat :=
  (y - 1) * 365 + (y - 1) / 4 - (y - 1) / 100 + (y - 1) / 400 + daysBeforeMonth y m + d

/-- Seconds from the Unix epoch to the instant denoted by `dt`, with a
timezone-naive `dt` treated as UTC.  This is `dt.timestamp()` after
the `dt.replace(tzinfo=timezone.utc)` step of `_to_ns` for naive inputs. -/
def PyDatetime.epochSeconds (dt : PyDatetime) : Int :=
  ((toOrdinal dt.year dt.month dt.day : Int) - 719163) * 86400
    + dt.hour * 3600 + dt.minute * 60 + dt.second - dt.tzOffsetSeconds.getD 0

/-- Model of `types._to_ns`: nanoseconds since the epoch.  Python computes
`int(dt.timestamp() * 1_000_000_000)` through a 64-bit float; for the
whole-second datetimes in this model that float product is exact, so the
computation is embedded as exact integer arithmetic. -/
def _to_ns (dt : PyDatetime) : Int :=
  dt.epochSeconds * 1000000000

/-- Model of `types.Timestamp`: a frozen dataclass holding nanoseconds since epoch. -/
structure Timestamp where
  value_ns : Int
deriving DecidableEq, Repr

/-- Model of `Timestamp.from_datetime`. -/
def Timestamp.from_datetime (dt : PyDatetime) : Timestamp :=
  ⟨_to_ns dt⟩

/-- The universe of Python values handled by the encoding pipeline. -/
inductive Val where
  | none : Val
  | bool (b : Bool) : Val
  | int (n : Int) : Val
  | str (s : String) : Val
  | list (items : List Val) : Val
  | dict (entries : List (String × Val)) : Val
  | timestamp (value_ns : Int) : Val
  | link (query : String) (show_text : String) : Val
  | datetime (dt : PyDatetime) : Val
deriving Repr

/-- Python `type(v).__name__`, used in error messages. -/
def Val.typeName : Val → String
  | .none => "NoneType"
  | .bool _ => "bool"
  | .int _ => "int"
  | .str _ => "str"
  | .list _ => "list"
  | .dict _ => "dict"
  | .timestamp _ => "Timestamp"
  | .link _ _ => "Link"
  | .datetime _ => "datetime"

mutual

/-- Boolean equality on `Val` (Python `==` on these values). -/
def Val.beq : Val → Val → Bool
  | .none, .none => true
  | .bool a, .bool b => a == b
  | .int a, .int b => a == b
  | .str a, .str b => a == b
  | .list xs, .list ys => Val.beqList xs ys
  | .dict xs, .dict ys => Val.beqPairs xs ys
  | .timestamp a, .timestamp b => a == b
  | .link q1 s1, .link q2 s2 => q1 == q2 && s1 == s2
  | .datetime a, .datetime b => a == b
  | _, _ => false
termination_by structural a _ => a

/-- Elementwise equality of value lists. -/
def Val.beqList : List Val → List Val → Bool
  | [], [] => true
  | x :: xs, y :: ys => Val.beq x y && Val.beqList xs ys
  | _, _ => false
termination_by structural xs _ => xs

/-- Elementwise equality of dict entry lists. -/
def Val.beqPairs : List (String × Val) → List (String × Val) → Bool
  | [], [] => true
  | (k1, v1) :: xs, (k2, v2) :: ys => k1 == k2 && Val.beq v1 v2 && Val.beqPairs xs ys
  | _, _ => false
termination_by structural xs _ => xs

end

/-- Decidable equality for `Val`, built from `Val.beq` together with an
inline proof that `Val.beq` agrees with propositional equality. -/
instance : DecidableEq Val := fun a b =>
  decidable_of_iff (Val.beq a b = true) (by
  induction a, b using Val.beq.induct with
  | motive_2 =>
    rename_i xs ys
    exact Val.beqPairs xs ys = true ↔ xs = ys
  | motive_3 =>
    rename_i xs ys
    exact Val.beqList xs ys = true ↔ xs = ys
  | case1 => simp [Val.beq]
  | case2 a b => simp [Val.beq]
  | case3 a b => simp [Val.beq]
  | case4 a b => simp [Val.beq]
  | case5 xs ys ih => simpa [Val.beq] using ih
  | case6 xs ys ih => simpa [Val.beq] using ih
  | case7 a b => simp [Val.beq]
  | case8 q1 s1 q2 s2 => simp [Val.beq]
  | case9 a b => simp [Val.beq]
  | case10 a b h1 h2 h3 h4 h5 h6 h7 h8 h9 =>
    cases a <;> cases b <;> simp [Val.beq] <;> first
      | exact (h5 _ _ rfl rfl).elim
      | exact (h6 _ _ rfl rfl).elim
  | case11 => simp [Val.beqList]
  | case12 x xs y ys ihv ihtail => simp [Val.beqList, ihv, ihtail]
  | case13 xs ys h1 h2 =>
    cases xs <;> cases ys <;> simp [Val.beqList]
    exact (h2 _ _ _ _ rfl rfl).elim
  | case14 => simp [Val.beqPairs]
  | case15 k1 v1 xs k2 v2 ys ihv ihtail => simp [Val.beqPairs, ihv, ihtail]
  | case16 xs ys h1 h2 =>
    cases xs <;> cases ys <;> simp [Val.beqPairs]
    rename_i p xs q ys
    exact (h2 p.1 p.2 xs q.1 q.2 ys (by simp) (by simp)).elim)

mutual

/-- Model of `types.encode_value`: recursively canonicalize a value.  `Timestamp` and
`Link` emit their tagged primitive dicts (`to_sa_primitive`), datetimes are
converted to `Timestamp` first, mappings and sequences recurse, everything
else passes through unchanged. -/
def encode_value : Val → Val
  | .timestamp ns => .dict [("__sa_type__", .str "timestamp"), ("timestamp", .int ns)]
  | .link q st =>
      .dict [("__sa_type__", .str "link"), ("query", .str q), ("show_text", .str st)]
  | .datetime dt =>
      .dict [("__sa_type__", .str "timestamp"), ("timestamp", .int (_to_ns dt))]
  | .dict entries => .dict (encodePairs entries)
  | .list items => .list (encodeList items)
  | .none => .none
  | .bool b => .bool b
  | .int n => .int n
  | .str s => .str s
termination_by structural v => v

/-- Function `encode_value` mapped over the elements of a list value. -/
def encodeList : List Val → List Val
  | [] => []
  | v :: vs => encode_value v :: encodeList vs
termination_by structural vs => vs

/-- Function `encode_value` mapped over the values of a dict. -/
def encodePairs : List (String × Val) → List (String × Val)
  | [] => []
  | (k, v) :: rest => (k, encode_value v) :: encodePairs rest
termination_by structural ps => ps

end

/-- A raised Python exception: class name plus message. -/
structure Exc where
  name : String
  msg : String
deriving DecidableEq, Repr

/-- Python `d[k]` / `d.get(k)` on a dict: the value bound to `k`, if any. -/
def lookupKey (entries : List (String × Val)) (k : String) : Option Val :=
  (entries.find? (fun p => p.1 == k)).map (fun p => p.2)

/-- Python `d[k] = v` on a dict: replace in place if `k` is present
(keeping its position), otherwise append a new binding. -/
def setKey (entries : List (String × Val)) (k : String) (v : Val) :
    List (String × Val) :=
  match entries with
  | [] => [(k, v)]
  | (k2, v2) :: rest =>
      if k2 == k then (k, v) :: rest else (k2, v2) :: setKey rest k v

/-- Model of `models.SAPObject`: header fields plus the caller property bag. -/
structure SAPObject where
  id : String
  types : List String
  source : String
  properties : List (String × Val)

/-- Model of `SAPObject.to_json`: build the payload dict with the three reserved keys
first, then assign each encoded property into the same dict. -/
def SAPObject.to_json (o : SAPObject) : Val :=
  .dict (o.properties.foldl
    (fun payload kv => setKey payload kv.1 (encode_value kv.2))
    [("__types__", .list (o.types.map Val.str)),
     ("__id__", .str o.id),
     ("__source__", .str o.source)])

/-- Model of `models.make_object`: construct an `SAPObject` and serialize it. -/
def make_object (id : String) (types : List String) (source : String)
    (properties : List (String × Val)) : Val :=
  (SAPObject.mk id types source properties).to_json

/-- Model of `types.timestamp`: dispatch on the argument type.  (Python also accepts a
float seconds value; floats are outside the value universe of this model.) -/
def timestamp : Val → Except Exc Timestamp
  | .datetime dt => .ok (Timestamp.from_datetime dt)
  | .int n => .ok ⟨n⟩
  | _ => .error ⟨"TypeError", "timestamp() expects datetime, float seconds, or int nanoseconds"⟩

/-- Is this optional looked-up value a string? -/
def isStrOpt : Option Val → Bool
  | some (.str _) => true
  | _ => false

/-- Is this optional looked-up value a `list` whose items are all strings? -/
def isStrListOpt : Option Val → Bool
  | some (.list l) => l.all (fun v => match v with | .str _ => true | _ => false)
  | _ => false

/-- The validation performed by `models.normalize_objects` on the record at
index `i`, in source order; `Option.none` when the record passes. -/
def checkRecordErr (i : Nat) : Val → Option Exc
  | .dict kvs =>
      if ¬ (["__id__", "__types__", "__source__"].all
              (fun k => (lookupKey kvs k).isSome)) then
        some ⟨"ValueError",
          "objects[" ++ toString i ++ "] missing one of required keys __id__, __types__, __source__"⟩
      else if ¬ isStrOpt (lookupKey kvs "__id__") then
        some ⟨"TypeError", "objects[" ++ toString i ++ "].__id__ must be str"⟩
      else if ¬ isStrOpt (lookupKey kvs "__source__") then
        some ⟨"TypeError", "objects[" ++ toString i ++ "].__source__ must be str"⟩
      else if ¬ isStrListOpt (lookupKey kvs "__types__") then
        some ⟨"TypeError", "objects[" ++ toString i ++ "].__types__ must be list[str]"⟩
      else Option.none
  | v => some ⟨"TypeError",
      "objects[" ++ toString i ++ "] must be a dict, got " ++ v.typeName⟩

/-- The loop body of `models.normalize_objects`, carrying the enumeration
index: validate each record, abort at the first violation, otherwise encode
every field of every record. -/
def normalizeGo : Nat → List Val → Except Exc (List Val)
  | _, [] => .ok []
  | i, obj :: rest =>
      match checkRecordErr i obj with
      | some e => .error e
      | Option.none =>
          match obj with
          | .dict kvs =>
              (normalizeGo (i + 1) rest).map
                (fun tail => .dict (encodePairs kvs) :: tail)
          | v => .error ⟨"TypeError",
              "objects[" ++ toString i ++ "] must be a dict, got " ++ v.typeName⟩

/-- Model of `models.normalize_objects`. -/
def normalize_objects (objs : List Val) : Except Exc (List Val) :=
  normalizeGo 0 objs

/-- The identity key used by `models.deduplicate_objects`:
`(obj.get("__id__"), obj.get("__source__"), tuple(obj.get("__types__", [])))`. -/
abbrev DKey := Option Val × Option Val × List Val

/-- Python `tuple(v)`: materialize an iterable value; raises `TypeError` for
a non-iterable value. -/
def pyTupleOf : Val → Except Exc (List Val)
  | .list l => .ok l
  | .str s => .ok (s.toList.map (fun c => Val.str (String.mk [c])))
  | .dict kvs => .ok (kvs.map (fun p => Val.str p.1))
  | v => .error ⟨"TypeError", v.typeName ++ " object is not iterable"⟩

/-- The key computation inside `deduplicate_objects`.  Calling `.get` on a
non-dict raises `AttributeError`; `tuple(...)` of a non-iterable `__types__`
raises `TypeError`. -/
def dedupKey : Val → Except Exc DKey
  | .dict kvs =>
      (pyTupleOf ((lookupKey kvs "__types__").getD (.list []))).map
        (fun t => (lookupKey kvs "__id__", lookupKey kvs "__source__", t))
  | v => .error ⟨"AttributeError", v.typeName ++ " object has no attribute get"⟩

/-- The loop of `models.deduplicate_objects`, carrying the `seen` key set. -/
def dedupGo : List DKey → List Val → Except Exc (List Val)
  | _, [] => .ok []
  | seen, obj :: rest =>
      match dedupKey obj with
      | .error e => .error e
      | .ok key =>
          if key ∈ seen then dedupGo seen rest
          else (dedupGo (key :: seen) rest).map (fun r => obj :: r)

/-- Model of `models.deduplicate_objects`. -/
def deduplicate_objects (objs : List Val) : Except Exc (List Val) :=
  dedupGo [] objs

/-- The identity key as the spec describes it, for records in canonical
shape: `(__id__, __source__, tuple(__types__))`, with a missing `__types__`
treated as the empty sequence. -/
def specKey : Val → DKey
  | .dict kvs =>
      (lookupKey kvs "__id__", lookupKey kvs "__source__",
        match lookupKey kvs "__types__" with
        | some (.list l) => l
        | _ => [])
  | _ => (Option.none, Option.none, [])

/-- Deduplication as the spec phrases it: keep the first occurrence of each
identity key and silently drop every later occurrence of the same key,
preserving the order of survivors. -/
def dedupSpec : List Val → List Val
  | [] => []
  | o :: rest =>
      o :: dedupSpec (rest.filter (fun o2 => decide (specKey o2 ≠ specKey o)))
  termination_by xs => xs.length
  decreasing_by
    simp only [List.length_cons]
    exact Nat.lt_succ_of_le (List.length_filter_le _ _)

/-- A record is in dedup-compatible canonical shape: it is a dict whose
`__types__`, when present, is a list.  (Normalizer output always is.) -/
def canonShape : Val → Bool
  | .dict kvs =>
      match lookupKey kvs "__types__" with
      | some v => (match v with | .list _ => true | _ => false)
      | Option.none => true
  | _ => false

/-- One item of a fetch result, as `_run_once` classifies it: either a plain
Python value (possibly a dict), or an object exposing a `to_json()` method,
modelled by the outcome of calling that method. -/
inductive Item where
  | val (v : Val) : Item
  | obj (toJsonResult : Except Exc Val) : Item

/-- Python `isinstance(item, dict)`. -/
def Item.isDict : Item → Bool
  | .val (.dict _) => true
  | _ => false

/-- The value of an item on the no-conversion path (taken only when every
item is a plain dict, so the `.obj` branch is unreachable there). -/
def Item.rawVal : Item → Val
  | .val v => v
  | .obj _ => .none

/-- One step of the conversion comprehension
`item.to_json() if hasattr(item, "to_json") else item`: a plain item is kept
unchanged (even when it is not a dict), an object with `to_json` has the
method called, which may raise. -/
def Item.convert : Item → Except Exc Val
  | .val v => .ok v
  | .obj r => r

/-- The item-coercion step of `_run_once`: when some item is not a dict, run
the conversion comprehension over all items, replacing any exception it
raises by the fixed `TypeError`; otherwise keep the items as they are. -/
def coerceItems (items : List Item) : Except Exc (List Val) :=
  if items.all Item.isDict then .ok (items.map Item.rawVal)
  else
    match items.mapM Item.convert with
    | .ok vs => .ok vs
    | .error _ => .error ⟨"TypeError", "each item must be a dict or provide to_json()"⟩

/-- The value returned by the fetch function: a list of items, a non-list
iterable of items (which `list(...)` materializes), or a non-iterable value
(on which `list(...)` raises `TypeError`). -/
inductive FetchReturn where
  | list (items : List Item) : FetchReturn
  | iterable (items : List Item) : FetchReturn
  | notIterable : FetchReturn

/-- The observable outcome of invoking the fetch function on its worker
thread within one cycle: it raised, it failed to finish within the timeout
(possible only when a timeout is configured), or it returned. -/
inductive FetchOutcome where
  | raises (e : Exc) : FetchOutcome
  | timesOut : FetchOutcome
  | returns (r : FetchReturn) : FetchOutcome

/-- The result of the body of the `try` block of `_run_once` for one cycle: the
data to publish, or the exception reaching the `except` clause.  `timeout`
is `fetch_timeout_seconds` and `post` the optional postprocess callable. -/
def cycleResult (timeout : Option Nat)
    (post : Option (List Val → Except Exc (List Val)))
    (outcome : FetchOutcome) : Except Exc (List Val) :=
  match outcome with
  | .raises e => .error e
  | .timesOut =>
      .error ⟨"TimeoutError",
        "fetch exceeded " ++ toString (timeout.getD 0) ++ " seconds"⟩
  | .returns r =>
      match r with
      | .notIterable =>
          .error ⟨"TypeError", "fetch function must return a list or iterable of dicts"⟩
      | .list items | .iterable items =>
          match coerceItems items with
          | .error e => .error e
          | .ok vs =>
              match post with
              | Option.none => .ok vs
              | some p => p vs

/-- The mutable state of an `IntervalCacheRunner` relevant to a fetch cycle. -/
structure RunnerState where
  in_flight : Bool
  last_started_at : Option Nat
  last_completed_at : Option Nat
  last_error : Option String
  cache : List Val
deriving DecidableEq, Repr

/-- The state established by `IntervalCacheRunner.__init__`. -/
def initState : RunnerState :=
  ⟨false, Option.none, Option.none, Option.none, []⟩

/-- Model of `IntervalCacheRunner._run_once` as a state transition.  `tStart` and
`tComplete` are the two `time.time()` readings of the cycle, and `outcome`
is how the environment resolved the fetch call.  The returned boolean states
whether the fetch function was invoked (false exactly on the single-flight
guard path).  `run_now(blocking=True)`, the non-blocking `run_now` worker
and the interval loop all funnel into this transition. -/
def run_once (timeout : Option Nat)
    (post : Option (List Val → Except Exc (List Val)))
    (outcome : FetchOutcome) (tStart tComplete : Nat) (s : RunnerState) :
    RunnerState × Bool :=
  if s.in_flight then (s, false)
  else
    match cycleResult timeout post outcome with
    | .ok data =>
        ({ in_flight := false, last_started_at := some tStart,
           last_completed_at := some tComplete, last_error := Option.none,
           cache := data }, true)
    | .error e =>
        ({ in_flight := false, last_started_at := some tStart,
           last_completed_at := some tComplete,
           last_error := some (e.name ++ ": " ++ e.msg),
           cache := s.cache }, true)

/-- A record violates the normalizer schema (is not a dict, lacks a reserved
key, or has a mistyped reserved field).  The violation conditions do not
depend on the position of the record, only the error message does. -/
def recordViolation (v : Val) : Bool :=
  (checkRecordErr 0 v).isSome

/-! ## Helper lemmas -/

theorem encodeList_eq_map (items : List Val) :
    encodeList items = items.map encode_value := by
  induction items with
  | nil => rfl
  | cons v vs ih => simp [encodeList, ih]

theorem encodePairs_eq_map (entries : List (String × Val)) :
    encodePairs entries = entries.map (fun p => (p.1, encode_value p.2)) := by
  induction entries with
  | nil => rfl
  | cons p ps ih =>
    obtain ⟨k, v⟩ := p
    simp [encodePairs, ih]

/-! ## Claim C10 -/

/-- C10: `encode_value` is idempotent — every output of `encode_value`
(tagged primitive dicts, recursively encoded mappings and lists, pass-through
scalars) is a fixed point of `encode_value`, so already-encoded records pass
through re-encoding unchanged. -/
theorem encode_value_idempotent :
    ∀ v : Val, encode_value (encode_value v) = encode_value v := by
  intro v
  induction v using encode_value.induct with
  | motive_2 =>
    rename_i l
    exact encodeList (encodeList l) = encodeList l
  | motive_3 =>
    rename_i ps
    exact encodePairs (encodePairs ps) = encodePairs ps
  | case1 ns => simp [encode_value, encodePairs]
  | case2 q st => simp [encode_value, encodePairs]
  | case3 dt => simp [encode_value, encodePairs]
  | case4 entries ih => simp [encode_value, ih]
  | case5 items ih => simp [encode_value, ih]
  | case6 => rfl
  | case7 b => rfl
  | case8 n => rfl
  | case9 s => rfl
  | case10 => rfl
  | case11 v rest ihv ihrest => simp [encodeList, ihv, ihrest]
  | case12 => rfl
  | case13 k v rest ihv ihrest => simp [encodePairs, ihv, ihrest]

/-! ## Claim C8 -/

/-- C8: encoding the calendar date-time 2022-03-15T00:00:00 with no timezone
(treated as UTC) — via `timestamp(datetime(2022, 3, 15))` or via
`encode_value` of that datetime — yields a Timestamp of exactly
`1647302400 * 1_000_000_000` nanoseconds, and in general
`Timestamp.from_datetime` treats timezone-naive date-times as UTC. -/
theorem timestamp_naive_utc_encoding :
    timestamp (.datetime ⟨2022, 3, 15, 0, 0, 0, Option.none⟩) =
      .ok ⟨1647302400 * 1000000000⟩ ∧
    encode_value (.datetime ⟨2022, 3, 15, 0, 0, 0, Option.none⟩) =
      .dict [("__sa_type__", .str "timestamp"),
             ("timestamp", .int (1647302400 * 1000000000))] ∧
    ∀ dt : PyDatetime, dt.tzOffsetSeconds = Option.none →
      Timestamp.from_datetime dt =
        Timestamp.from_datetime { dt with tzOffsetSeconds := some 0 } := by
  refine ⟨by rfl, by rfl, ?_⟩
  intro dt h
  simp [Timestamp.from_datetime, _to_ns, PyDatetime.epochSeconds, h]

/-- Witness for the hypothesis-bearing part of C8, at a concrete naive
date-time. -/
theorem timestamp_naive_utc_encoding_witness :
    Timestamp.from_datetime ⟨2021, 6, 1, 12, 30, 5, Option.none⟩ =
      Timestamp.from_datetime ⟨2021, 6, 1, 12, 30, 5, some 0⟩ :=
  timestamp_naive_utc_encoding.2.2 ⟨2021, 6, 1, 12, 30, 5, Option.none⟩ rfl

/-! ## Claim C2 -/

/-- C2: whenever `in_flight` is already true, a fetch cycle (`_run_once`,
reached from the interval loop, blocking `run_now`, or its non-blocking
worker) is a silent no-op: the fetch function is not invoked (the returned
flag is `false`) and the whole state — cache, `last_started_at`,
`last_completed_at`, `last_error`, `in_flight` — is unchanged. -/
theorem run_once_single_flight (timeout : Option Nat)
    (post : Option (List Val → Except Exc (List Val))) (outcome : FetchOutcome)
    (tStart tComplete : Nat) (s : RunnerState) (h : s.in_flight = true) :
    run_once timeout post outcome tStart tComplete s = (s, false) := by
  simp [run_once, h]

/-- Witness for C2 at a concrete in-flight state. -/
theorem run_once_single_flight_witness :
    run_once (some 120) Option.none (.raises ⟨"ValueError", "boom"⟩) 5 6
        ⟨true, some 1, some 2, Option.none, [.int 7]⟩ =
      (⟨true, some 1, some 2, Option.none, [.int 7]⟩, false) :=
  run_once_single_flight (some 120) Option.none (.raises ⟨"ValueError", "boom"⟩)
    5 6 ⟨true, some 1, some 2, Option.none, [.int 7]⟩ rfl

/-! ## Claim C1 -/

/-- C1: in every fetch cycle in which an error occurs — the fetch function
raises, the fetch times out, coercion fails, or postprocess raises, i.e. the
`try`-block result is an error `e` — the cached snapshot is left exactly as
before the cycle, `last_error` is set to the string `kind: message`,
`last_completed_at` is updated, and `in_flight` is false afterwards.  No
exception propagates: `run_once` is a total transition returning a state. -/
theorem run_once_error_keeps_snapshot (timeout : Option Nat)
    (post : Option (List Val → Except Exc (List Val))) (outcome : FetchOutcome)
    (tStart tComplete : Nat) (s : RunnerState) (e : Exc)
    (hguard : s.in_flight = false)
    (herr : cycleResult timeout post outcome = .error e) :
    run_once timeout post outcome tStart tComplete s =
      ({ in_flight := false, last_started_at := some tStart,
         last_completed_at := some tComplete,
         last_error := some (e.name ++ ": " ++ e.msg),
         cache := s.cache }, true) := by
  simp [run_once, hguard, herr]

/-- Witness for C1: a raising fetch function leaves the previous snapshot
`[7]` in place and records the error string. -/
theorem run_once_error_keeps_snapshot_witness :
    run_once (some 120) Option.none (.raises ⟨"ValueError", "boom"⟩) 5 6
        ⟨false, some 1, some 2, Option.none, [.int 7]⟩ =
      ({ in_flight := false, last_started_at := some 5,
         last_completed_at := some 6,
         last_error := some "ValueError: boom", cache := [.int 7] }, true) := by
  have h := run_once_error_keeps_snapshot (some 120) Option.none
    (.raises ⟨"ValueError", "boom"⟩) 5 6
    ⟨false, some 1, some 2, Option.none, [.int 7]⟩ ⟨"ValueError", "boom"⟩ rfl rfl
  simpa using h

/-! ## Claim C4 -/

/-- C4 (code-bug evaluation): a successful fetch returning the list `[5]` —
whose single item is neither a mapping nor offers `to_json` — does NOT fail:
the conversion comprehension passes the item through unchanged, the cycle
completes successfully, and the non-mapping item is published to the cache
with `last_error` cleared.  This contradicts both the claim and the error
message of the code about such items. -/
theorem run_once_publishes_non_mapping_item :
    run_once (some 120) Option.none
        (.returns (.list [Item.val (.int 5)])) 10 11 initState =
      ({ in_flight := false, last_started_at := some 10,
         last_completed_at := some 11, last_error := Option.none,
         cache := [.int 5] }, true) := by
  rfl

/-! ## Claim C3 -/

theorem lookupKey_cons (k3 : String) (v3 : Val) (rest : List (String × Val))
    (k : String) :
    lookupKey ((k3, v3) :: rest) k =
      if k3 = k then some v3 else lookupKey rest k := by
  by_cases h : k3 = k
  · subst h
    simp [lookupKey, List.find?]
  · have hb : (k3 == k) = false := beq_eq_false_iff_ne.mpr h
    simp [lookupKey, List.find?, hb, h]

theorem lookupKey_setKey (entries : List (String × Val)) (k k2 : String) (v : Val) :
    lookupKey (setKey entries k v) k2 =
      if k2 = k then some v else lookupKey entries k2 := by
  induction entries with
  | nil =>
    show lookupKey [(k, v)] k2 = _
    rw [lookupKey_cons]
    by_cases h : k2 = k
    · simp [h]
    · rw [if_neg (fun hh : k = k2 => h hh.symm), if_neg h]
  | cons p rest ih =>
    obtain ⟨k3, v3⟩ := p
    by_cases h3 : k3 = k
    · subst h3
      rw [show setKey ((k3, v3) :: rest) k3 v = (k3, v) :: rest by simp [setKey]]
      rw [lookupKey_cons, lookupKey_cons]
      by_cases h : k2 = k3
      · simp [h]
      · have h32 : ¬ k3 = k2 := fun hh => h hh.symm
        rw [if_neg h32, if_neg h, if_neg h32]
    · rw [show setKey ((k3, v3) :: rest) k v = (k3, v3) :: setKey rest k v by
        simp [setKey, h3]]
      rw [lookupKey_cons, lookupKey_cons, ih]
      by_cases h : k2 = k
      · subst h
        have h32 : ¬ k3 = k2 := h3
        rw [if_neg h32, if_pos rfl, if_pos rfl]
      · rw [if_neg h, if_neg h]

theorem lookupKey_foldl_setKey_of_not_mem
    (props : List (String × Val)) (payload : List (String × Val)) (k : String)
    (h : ∀ p ∈ props, p.1 ≠ k) :
    lookupKey (props.foldl
        (fun pl kv => setKey pl kv.1 (encode_value kv.2)) payload) k =
      lookupKey payload k := by
  induction props generalizing payload with
  | nil => rfl
  | cons p rest ih =>
    have hp : p.1 ≠ k := h p (by simp)
    have hne : ¬ (k = p.1) := fun hk => hp hk.symm
    simp only [List.foldl_cons]
    rw [ih _ (fun q hq => h q (by simp [hq])), lookupKey_setKey]
    simp [hne]

theorem isSome_lookupKey_foldl_setKey
    (props : List (String × Val)) (payload : List (String × Val)) (k : String)
    (h : (lookupKey payload k).isSome) :
    (lookupKey (props.foldl
        (fun pl kv => setKey pl kv.1 (encode_value kv.2)) payload) k).isSome := by
  induction props generalizing payload with
  | nil => exact h
  | cons p rest ih =>
    simp only [List.foldl_cons]
    apply ih
    rw [lookupKey_setKey]
    by_cases hk : k = p.1 <;> simp [hk, h]

/-- C3 counterexample: `make_object` with a caller property named `__id__`
produces a payload whose `__id__` is the property value `"x"`, not the
header id `"a"` — the colliding property key DOES overwrite the reserved
field, refuting the claim as stated. -/
theorem make_object_reserved_key_overwritten :
    make_object "a" ["t"] "s" [("__id__", .str "x")] =
      .dict [("__types__", .list [.str "t"]), ("__id__", .str "x"),
             ("__source__", .str "s")] ∧
    make_object "a" ["t"] "s" [("__id__", .str "x")] ≠
      .dict [("__types__", .list [.str "t"]), ("__id__", .str "a"),
             ("__source__", .str "s")] := by
  exact ⟨rfl, by decide⟩

/-- C3 (amended): the three reserved keys `__id__`, `__types__`,
`__source__` are always present in `SAPObject.to_json` / `make_object`
output; and whenever no caller property key collides with a reserved name,
they carry exactly the header values.  (A colliding property key overwrites
the reserved value, as the counterexample shows.) -/
theorem to_json_reserved_fields (o : SAPObject) :
    (∃ kvs, o.to_json = Val.dict kvs ∧
       (lookupKey kvs "__id__").isSome ∧
       (lookupKey kvs "__types__").isSome ∧
       (lookupKey kvs "__source__").isSome) ∧
    ((∀ p ∈ o.properties,
        p.1 ≠ "__id__" ∧ p.1 ≠ "__types__" ∧ p.1 ≠ "__source__") →
      ∃ kvs, o.to_json = Val.dict kvs ∧
        lookupKey kvs "__id__" = some (.str o.id) ∧
        lookupKey kvs "__types__" = some (.list (o.types.map Val.str)) ∧
        lookupKey kvs "__source__" = some (.str o.source)) := by
  constructor
  · exact ⟨_, rfl,
      isSome_lookupKey_foldl_setKey _ _ _ rfl,
      isSome_lookupKey_foldl_setKey _ _ _ rfl,
      isSome_lookupKey_foldl_setKey _ _ _ rfl⟩
  · intro h
    refine ⟨_, rfl, ?_, ?_, ?_⟩
    · rw [lookupKey_foldl_setKey_of_not_mem _ _ _ (fun p hp => (h p hp).1)]
      rfl
    · rw [lookupKey_foldl_setKey_of_not_mem _ _ _ (fun p hp => (h p hp).2.1)]
      rfl
    · rw [lookupKey_foldl_setKey_of_not_mem _ _ _ (fun p hp => (h p hp).2.2)]
      rfl

/-- Witness for C3 (amended) at a concrete object with one non-colliding
property. -/
theorem to_json_reserved_fields_witness :
    ∃ kvs, (SAPObject.mk "a" ["t"] "s" [("x", Val.int 1)]).to_json =
        Val.dict kvs ∧
      lookupKey kvs "__id__" = some (.str "a") ∧
      lookupKey kvs "__types__" = some (.list [Val.str "t"]) ∧
      lookupKey kvs "__source__" = some (.str "s") := by
  have h := (to_json_reserved_fields
    (SAPObject.mk "a" ["t"] "s" [("x", Val.int 1)])).2 (by decide)
  simpa using h

/-! ## Claims C5 and C6 -/

theorem checkRecordErr_isSome (i : Nat) (v : Val) :
    (checkRecordErr i v).isSome = recordViolation v := by
  unfold recordViolation
  cases v <;> simp only [checkRecordErr] <;> try rfl
  split_ifs <;> rfl


theorem normalizeGo_error_iff (i : Nat) (objs : List Val) :
    (∃ e, normalizeGo i objs = .error e) ↔
      ∃ obj ∈ objs, recordViolation obj = true := by
  induction objs generalizing i with
  | nil => simp [normalizeGo]
  | cons obj rest ih =>
    cases hc : checkRecordErr i obj with
    | some e =>
      have hv : recordViolation obj = true := by
        rw [← checkRecordErr_isSome i, hc]
        rfl
      have hgo : normalizeGo i (obj :: rest) = .error e := by
        simp [normalizeGo, hc]
      exact ⟨fun _ => ⟨obj, by simp, hv⟩, fun _ => ⟨e, hgo⟩⟩
    | none =>
      have hv : recordViolation obj = false := by
        rw [← checkRecordErr_isSome i, hc]
        rfl
      cases obj with
      | dict kvs =>
        have hgo : normalizeGo i (Val.dict kvs :: rest) =
            (normalizeGo (i + 1) rest).map
              (fun tail => Val.dict (encodePairs kvs) :: tail) := by
          simp [normalizeGo, hc]
        rw [hgo]
        cases hr : normalizeGo (i + 1) rest with
        | ok ns =>
          have hnone : ¬ ∃ obj ∈ rest, recordViolation obj = true := by
            rw [← ih (i + 1)]
            simp [hr]
          simp only [Except.map]
          constructor
          · intro ⟨e, he⟩
            exact absurd he (by simp)
          · intro ⟨o, ho, hvo⟩
            rcases List.mem_cons.mp ho with rfl | ho2
            · simp [hvo] at hv
            · exact absurd ⟨o, ho2, hvo⟩ hnone
        | error e =>
          have hsome : ∃ obj ∈ rest, recordViolation obj = true := by
            rw [← ih (i + 1)]
            exact ⟨e, hr⟩
          simp only [Except.map]
          obtain ⟨o, ho, hvo⟩ := hsome
          exact ⟨fun _ => ⟨o, by simp [ho], hvo⟩, fun _ => ⟨e, rfl⟩⟩
      | _ => simp [checkRecordErr] at hc

theorem normalizeGo_first_error (objs : List Val) :
    ∀ (i idx : Nat) (obj : Val),
      objs[idx]? = some obj →
      recordViolation obj = true →
      (∀ j obj2, j < idx → objs[j]? = some obj2 → recordViolation obj2 = false) →
      ∃ e, checkRecordErr (i + idx) obj = some e ∧
           normalizeGo i objs = .error e := by
  induction objs with
  | nil =>
    intro i idx obj hget
    simp at hget
  | cons head rest ih =>
    intro i idx obj hget hviol hprev
    cases idx with
    | zero =>
      have hobj : head = obj := by simpa using hget
      subst hobj
      have hs : (checkRecordErr i head).isSome := by
        rw [checkRecordErr_isSome]
        exact hviol
      obtain ⟨e, he⟩ := Option.isSome_iff_exists.mp hs
      refine ⟨e, ?_, ?_⟩
      · simpa using he
      · simp [normalizeGo, he]
    | succ idx =>
      have h0 : recordViolation head = false :=
        hprev 0 head (Nat.succ_pos _) (by simp)
      have hc : checkRecordErr i head = Option.none := by
        have hs := checkRecordErr_isSome i head
        rw [h0] at hs
        exact Option.not_isSome_iff_eq_none.mp (by simp [hs])
      cases head with
      | dict kvs =>
        obtain ⟨e, he1, he2⟩ := ih (i + 1) idx obj (by simpa using hget) hviol
          (fun j obj2 hj hobj =>
            hprev (j + 1) obj2 (Nat.succ_lt_succ hj) (by simpa using hobj))
        refine ⟨e, ?_, ?_⟩
        · have harith : i + (idx + 1) = (i + 1) + idx := by omega
          rw [harith]
          exact he1
        · simp [normalizeGo, hc, he2, Except.map]
      | _ => simp [checkRecordErr] at hc

/-- C5: `normalize_objects` fails with a SchemaError-kind error (a
`TypeError`/`ValueError` whose message cites the index of the first failing
record) if and only if some record is not a dict, lacks one of `__id__`,
`__types__`, `__source__`, has a non-string `__id__` or `__source__`, or a
`__types__` that is not a list of strings; any violation aborts the whole
batch with no partial output, and `normalize_objects [{"name": "x"}]` in
particular fails with the missing-keys `ValueError`. -/
theorem normalize_objects_schema_errors (objs : List Val) :
    ((∃ e, normalize_objects objs = .error e) ↔
       ∃ obj ∈ objs, recordViolation obj = true) ∧
    (∀ idx obj, objs[idx]? = some obj →
       recordViolation obj = true →
       (∀ j obj2, j < idx → objs[j]? = some obj2 →
         recordViolation obj2 = false) →
       ∃ e, checkRecordErr idx obj = some e ∧
            normalize_objects objs = .error e) ∧
    normalize_objects [Val.dict [("name", Val.str "x")]] =
      .error ⟨"ValueError",
        "objects[0] missing one of required keys __id__, __types__, __source__"⟩ := by
  refine ⟨normalizeGo_error_iff 0 objs, ?_, by rfl⟩
  intro idx obj hget hv hprev
  have h := normalizeGo_first_error objs 0 idx obj hget hv hprev
  simpa using h

/-- Witness for C5: a batch whose second record is the non-dict `3` fails
with the `TypeError` citing index 1, the first violating position. -/
theorem normalize_objects_schema_errors_witness :
    ∃ e, checkRecordErr 1 (Val.int 3) = some e ∧
      normalize_objects
        [Val.dict [("__id__", .str "a"), ("__types__", .list [.str "t"]),
            ("__source__", .str "s")], Val.int 3] = .error e := by
  refine (normalize_objects_schema_errors
    [Val.dict [("__id__", .str "a"), ("__types__", .list [.str "t"]),
        ("__source__", .str "s")], Val.int 3]).2.1 1 (Val.int 3) rfl (by decide) ?_
  intro j obj2 hj hobj
  interval_cases j
  simp only [List.getElem?_cons_zero, Option.some.injEq] at hobj
  subst hobj
  decide

theorem normalizeGo_ok_of_valid (objs : List Val) :
    ∀ i, (∀ obj ∈ objs, recordViolation obj = false) →
      normalizeGo i objs = .ok (objs.map encode_value) := by
  induction objs with
  | nil =>
    intro i h
    rfl
  | cons obj rest ih =>
    intro i h
    have hobj : recordViolation obj = false := h obj (by simp)
    have hrest : ∀ o ∈ rest, recordViolation o = false :=
      fun o ho => h o (by simp [ho])
    have hc : checkRecordErr i obj = Option.none := by
      have hs := checkRecordErr_isSome i obj
      rw [hobj] at hs
      exact Option.not_isSome_iff_eq_none.mp (by simp [hs])
    cases obj with
    | dict kvs =>
      simp [normalizeGo, hc, ih (i + 1) hrest, Except.map, encode_value]
    | _ => simp [checkRecordErr] at hc

/-- C6: for every batch of valid records, `normalize_objects` succeeds and
returns a batch of the same length and order whose i-th element is a dict
with exactly the keys of the i-th input (the three reserved keys included)
and each value passed through `encode_value`; in particular the record with
`extra = 5` normalizes to itself with `extra` still `5`. -/
theorem normalize_objects_success (objs : List Val)
    (h : ∀ obj ∈ objs, recordViolation obj = false) :
    ∃ ns, normalize_objects objs = .ok ns ∧
      ns.length = objs.length ∧
      (∀ (i : Nat) (kvs : List (String × Val)),
        objs[i]? = some (Val.dict kvs) →
        ns[i]? = some (Val.dict (kvs.map (fun p => (p.1, encode_value p.2))))) ∧
      normalize_objects
        [Val.dict [("__id__", .str "a"), ("__types__", .list [.str "t"]),
            ("__source__", .str "s"), ("extra", .int 5)]] =
        .ok [Val.dict [("__id__", .str "a"), ("__types__", .list [.str "t"]),
            ("__source__", .str "s"), ("extra", .int 5)]] := by
  refine ⟨objs.map encode_value, normalizeGo_ok_of_valid objs 0 h, by simp,
    ?_, by rfl⟩
  intro i kvs hget
  rw [List.getElem?_map, hget]
  simp [encode_value, encodePairs_eq_map]

/-- Witness for C6 at the concrete one-record batch from the claim. -/
theorem normalize_objects_success_witness :
    ∃ ns, normalize_objects
        [Val.dict [("__id__", .str "a"), ("__types__", .list [.str "t"]),
            ("__source__", .str "s"), ("extra", .int 5)]] = .ok ns ∧
      ns.length =
        [Val.dict [("__id__", .str "a"), ("__types__", .list [.str "t"]),
            ("__source__", .str "s"), ("extra", .int 5)]].length := by
  obtain ⟨ns, h1, h2, _, _⟩ := normalize_objects_success
    [Val.dict [("__id__", .str "a"), ("__types__", .list [.str "t"]),
        ("__source__", .str "s"), ("extra", .int 5)]] (by decide)
  exact ⟨ns, h1, h2⟩

/-! ## Claim C9 -/

theorem dedupGo_fixed (objs : List Val) :
    ∀ seen r, dedupGo seen objs = .ok r → dedupGo seen r = .ok r := by
  induction objs with
  | nil =>
    intro seen r h
    simp only [dedupGo] at h
    rw [Except.ok.injEq] at h
    subst h
    rfl
  | cons obj rest ih =>
    intro seen r h
    cases hk : dedupKey obj with
    | error e =>
      simp only [dedupGo, hk] at h
      exact absurd h (by simp)
    | ok key =>
      by_cases hmem : key ∈ seen
      · have h2 : dedupGo seen rest = .ok r := by
          simpa only [dedupGo, hk, if_pos hmem] using h
        exact ih seen r h2
      · simp only [dedupGo, hk, if_neg hmem] at h
        cases hr : dedupGo (key :: seen) rest with
        | error e =>
          rw [hr] at h
          simp [Except.map] at h
        | ok r2 =>
          rw [hr] at h
          simp only [Except.map, Except.ok.injEq] at h
          subst h
          simp only [dedupGo, hk, if_neg hmem]
          rw [ih (key :: seen) r2 hr]
          rfl

/-- C9: `deduplicate_objects` is idempotent: deduplicating an
already-deduplicated sequence returns it unchanged. -/
theorem deduplicate_objects_idempotent (objs r : List Val)
    (h : deduplicate_objects objs = .ok r) :
    deduplicate_objects r = .ok r :=
  dedupGo_fixed objs [] r h

/-- Witness for C9: deduplicating a two-copy batch yields one copy, and
deduplicating that output returns it unchanged. -/
theorem deduplicate_objects_idempotent_witness :
    deduplicate_objects
      [Val.dict [("__id__", Val.str "a"), ("__source__", Val.str "s"),
          ("__types__", Val.list [Val.str "t"])]] =
      .ok [Val.dict [("__id__", Val.str "a"), ("__source__", Val.str "s"),
          ("__types__", Val.list [Val.str "t"])]] :=
  deduplicate_objects_idempotent
    [Val.dict [("__id__", Val.str "a"), ("__source__", Val.str "s"),
        ("__types__", Val.list [Val.str "t"])],
     Val.dict [("__id__", Val.str "a"), ("__source__", Val.str "s"),
        ("__types__", Val.list [Val.str "t"])]]
    [Val.dict [("__id__", Val.str "a"), ("__source__", Val.str "s"),
        ("__types__", Val.list [Val.str "t"])]]
    rfl

/-! ## Claim C7 -/

theorem dedupKey_of_canonShape (o : Val) (h : canonShape o = true) :
    dedupKey o = .ok (specKey o) := by
  cases o with
  | dict kvs =>
    simp only [dedupKey, specKey]
    cases hl : lookupKey kvs "__types__" with
    | none => simp [pyTupleOf, Except.map]
    | some v =>
      cases v with
      | list l => simp [pyTupleOf, Except.map]
      | _ => simp [canonShape, hl] at h
  | _ => simp [canonShape] at h

theorem dedupSpec_cons (o : Val) (rest : List Val) :
    dedupSpec (o :: rest) =
      o :: dedupSpec (rest.filter (fun o2 => decide (specKey o2 ≠ specKey o))) := by
  rw [dedupSpec.eq_def]

theorem dedupGo_eq_dedupSpec (objs : List Val) :
    ∀ seen, (∀ o ∈ objs, canonShape o = true) →
      dedupGo seen objs =
        .ok (dedupSpec (objs.filter (fun o => decide (specKey o ∉ seen)))) := by
  induction objs with
  | nil =>
    intro seen h
    simp [dedupGo, dedupSpec]
  | cons obj rest ih =>
    intro seen h
    have hobj := h obj (by simp)
    have hrest : ∀ o ∈ rest, canonShape o = true :=
      fun o ho => h o (by simp [ho])
    have hk := dedupKey_of_canonShape obj hobj
    by_cases hmem : specKey obj ∈ seen
    · have hfalse : decide (specKey obj ∉ seen) = false := by simp [hmem]
      simp only [dedupGo, hk, if_pos hmem, List.filter_cons, hfalse, if_false]
      exact ih seen hrest
    · have htrue : decide (specKey obj ∉ seen) = true := by simp [hmem]
      simp only [dedupGo, hk, if_neg hmem, List.filter_cons, htrue, if_true]
      rw [ih (specKey obj :: seen) hrest]
      simp only [Except.map, Except.ok.injEq]
      rw [dedupSpec_cons]
      congr 1
      rw [List.filter_filter]
      apply congrArg dedupSpec
      apply List.filter_congr
      intro o ho
      by_cases h1 : specKey o = specKey obj <;>
        by_cases h2 : specKey o ∈ seen <;>
          simp [h1, h2]

theorem dedupSpec_of_pairwise :
    ∀ l : List Val,
      List.Pairwise (fun a b => specKey a ≠ specKey b) l → dedupSpec l = l := by
  intro l
  induction l with
  | nil =>
    intro h
    simp [dedupSpec]
  | cons o rest ih =>
    intro h
    rw [dedupSpec_cons]
    rw [List.pairwise_cons] at h
    have hfilter : rest.filter (fun o2 => decide (specKey o2 ≠ specKey o)) = rest :=
      List.filter_eq_self.mpr (fun o2 ho2 => by
        simp [Ne.symm (h.1 o2 ho2)])
    rw [hfilter, ih h.2]

theorem lookupKey_encodePairs (kvs : List (String × Val)) (k : String) :
    lookupKey (encodePairs kvs) k = (lookupKey kvs k).map encode_value := by
  induction kvs with
  | nil => rfl
  | cons p rest ih =>
    obtain ⟨k1, v1⟩ := p
    rw [show encodePairs ((k1, v1) :: rest) = (k1, encode_value v1) :: encodePairs rest from rfl]
    rw [lookupKey_cons, lookupKey_cons]
    by_cases h : k1 = k <;> simp [h, ih]

theorem encodeList_of_all_str (l : List Val)
    (h : l.all (fun v => match v with | .str _ => true | _ => false) = true) :
    encodeList l = l := by
  induction l with
  | nil => rfl
  | cons v rest ih =>
    simp only [List.all_cons, Bool.and_eq_true] at h
    cases v with
    | str s =>
      rw [encodeList, ih h.2]
      rfl
    | _ => simp at h

theorem valid_record_fields (kvs : List (String × Val))
    (h : recordViolation (Val.dict kvs) = false) :
    (∃ s, lookupKey kvs "__id__" = some (Val.str s)) ∧
    (∃ s, lookupKey kvs "__source__" = some (Val.str s)) ∧
    (∃ l, lookupKey kvs "__types__" = some (Val.list l) ∧
      l.all (fun v => match v with | .str _ => true | _ => false) = true) := by
  simp only [recordViolation, checkRecordErr] at h
  split_ifs at h with h1 h2 h3 h4 <;> simp at h
  refine ⟨?_, ?_, ?_⟩
  · cases hl : lookupKey kvs "__id__" with
    | none =>
      rw [hl] at h2
      simp [isStrOpt] at h2
    | some v =>
      cases v with
      | str s => exact ⟨s, rfl⟩
      | _ =>
        rw [hl] at h2
        simp [isStrOpt] at h2
  · cases hl : lookupKey kvs "__source__" with
    | none =>
      rw [hl] at h3
      simp [isStrOpt] at h3
    | some v =>
      cases v with
      | str s => exact ⟨s, rfl⟩
      | _ =>
        rw [hl] at h3
        simp [isStrOpt] at h3
  · cases hl : lookupKey kvs "__types__" with
    | none =>
      rw [hl] at h4
      simp [isStrListOpt] at h4
    | some v =>
      cases v with
      | list l =>
        refine ⟨l, rfl, ?_⟩
        rw [hl] at h4
        simpa [isStrListOpt] using h4
      | _ =>
        rw [hl] at h4
        simp [isStrListOpt] at h4

theorem specKey_encode_of_valid (o : Val) (h : recordViolation o = false) :
    specKey (encode_value o) = specKey o := by
  cases o with
  | dict kvs =>
    obtain ⟨⟨sid, hid⟩, ⟨ssrc, hsrc⟩, ⟨l, hty, hstr⟩⟩ := valid_record_fields kvs h
    show specKey (Val.dict (encodePairs kvs)) = specKey (Val.dict kvs)
    simp only [specKey, lookupKey_encodePairs, hid, hsrc, hty]
    simp [encode_value, encodeList_of_all_str l hstr]
  | _ =>
    exfalso
    simp [recordViolation, checkRecordErr] at h

theorem canonShape_encode_of_valid (o : Val) (h : recordViolation o = false) :
    canonShape (encode_value o) = true := by
  cases o with
  | dict kvs =>
    obtain ⟨_, _, ⟨l, hty, hstr⟩⟩ := valid_record_fields kvs h
    show canonShape (Val.dict (encodePairs kvs)) = true
    simp only [canonShape, lookupKey_encodePairs, hty]
    simp [encode_value]
  | _ =>
    exfalso
    simp [recordViolation, checkRecordErr] at h

/-- C7: for canonical-shaped records, `deduplicate_objects` keeps exactly
the first occurrence of each identity key `(__id__, __source__,
tuple(__types__))` — later occurrences are silently dropped, survivors keep
their input order, and a missing `__types__` counts as the empty sequence
(`dedupSpec` states exactly this first-occurrence filter); consequently, for
valid records with pairwise-distinct identity keys, normalize followed by
deduplicate returns all records in input order. -/
theorem deduplicate_objects_first_wins (objs : List Val)
    (h : ∀ o ∈ objs, canonShape o = true) :
    deduplicate_objects objs = .ok (dedupSpec objs) ∧
    ((∀ o ∈ objs, recordViolation o = false) →
      List.Pairwise (fun a b => specKey a ≠ specKey b) objs →
      ∃ ns, normalize_objects objs = .ok ns ∧ ns.length = objs.length ∧
        deduplicate_objects ns = .ok ns) := by
  constructor
  · have hmain := dedupGo_eq_dedupSpec objs [] h
    simpa using hmain
  · intro hvalid hdist
    refine ⟨objs.map encode_value, normalizeGo_ok_of_valid objs 0 hvalid,
      by simp, ?_⟩
    have hshape : ∀ x ∈ objs.map encode_value, canonShape x = true := by
      intro x hx
      obtain ⟨o, ho, rfl⟩ := List.mem_map.mp hx
      exact canonShape_encode_of_valid o (hvalid o ho)
    have hpair0 : objs.Pairwise
        (fun a b => specKey (encode_value a) ≠ specKey (encode_value b)) :=
      hdist.imp_of_mem (fun ha hb hab => by
        rw [specKey_encode_of_valid _ (hvalid _ ha),
          specKey_encode_of_valid _ (hvalid _ hb)]
        exact hab)
    have hpair : List.Pairwise (fun a b => specKey a ≠ specKey b)
        (objs.map encode_value) := List.pairwise_map.mpr hpair0
    have h1 := dedupGo_eq_dedupSpec (objs.map encode_value) [] hshape
    simpa [dedupSpec_of_pairwise _ hpair] using h1

/-- Witness for C7: a batch with a duplicated identity key deduplicates to
its first-occurrence filter. -/
theorem deduplicate_objects_first_wins_witness :
    deduplicate_objects
      [Val.dict [("__id__", Val.str "a"), ("__source__", Val.str "s"),
          ("__types__", Val.list [Val.str "t"])],
       Val.dict [("__id__", Val.str "a"), ("__source__", Val.str "s"),
          ("__types__", Val.list [Val.str "t"])],
       Val.dict [("__id__", Val.str "b"), ("__source__", Val.str "s"),
          ("__types__", Val.list [Val.str "t"])]] =
      .ok (dedupSpec
        [Val.dict [("__id__", Val.str "a"), ("__source__", Val.str "s"),
            ("__types__", Val.list [Val.str "t"])],
         Val.dict [("__id__", Val.str "a"), ("__source__", Val.str "s"),
            ("__types__", Val.list [Val.str "t"])],
         Val.dict [("__id__", Val.str "b"), ("__source__", Val.str "s"),
            ("__types__", Val.list [Val.str "t"])]]) :=
  (deduplicate_objects_first_wins _ (by decide)).1
